import Mathlib

/-!
Shallow embedding of `test.py` (domain availability checker): the signal
probes (`check_dns`, `check_ping`, `check_tcp_port`, `check_http`), the
per-domain evaluator `check_domain`, and the batch scheduler `run_checks`.

Network effects are modelled by environments (oracles): an environment
records, for each probe call site, what the network would answer there,
including the possibility that the call raises an exception.  Each Python
function is translated to a Lean function over such an environment; where a
claim speaks about which probes are invoked, the Lean function additionally
returns the list of probe calls it performed, in order.
-/

namespace DomainsCheck

/-- The per-domain diagnostic record built by `check_domain`
(`details = {'dns': False, 'http': False, 'tcp': False, 'ping': False}`). -/
structure Details where
  dns : Bool
  http : Bool
  tcp : Bool
  ping : Bool
deriving DecidableEq, Repr

/-- The all-`False` initial details dictionary. -/
def Details.init : Details := ⟨false, false, false, false⟩

/-- One probe invocation performed by the evaluator, with its arguments as
far as the claims need them. -/
inductive Call where
  | dnsCall : Call
  | httpCall : Call
  | tcpCall (host : String) (port : Nat) : Call
  | pingCall (target : String) : Call
deriving DecidableEq, Repr

/-- Environment of one `check_domain` cascade: what each probe call would
return for this domain.  `Except Unit α` models a call that either returns
a value or raises an unexpected exception (caught by the
`except Exception` at the bottom of `check_domain`).  `dns` is the pair
`(success, ip_address)` returned by `check_dns`; `tcp` is indexed by host
and port, `ping` by the target string, so the model can express which
argument the code passes. -/
structure CascadeEnv where
  dns : Except Unit (Bool × Option String)
  http : Except Unit Bool
  tcp : String → Nat → Except Unit Bool
  ping : String → Except Unit Bool

/-- The `for port in (443, 80)` loop of `check_domain`, step 3: try each
port until one is open (`break` on first success); an exception in
`check_tcp_port` would propagate out of the loop.  Returns the final value
of `details['tcp']` (or the raised exception) and the calls made. -/
def tcpLoop (env : CascadeEnv) (host : String) : List Nat → Except Unit Bool × List Call
  | [] => (.ok false, [])
  | p :: rest =>
    match env.tcp host p with
    | .error e => (.error e, [.tcpCall host p])
    | .ok true => (.ok true, [.tcpCall host p])
    | .ok false =>
      let (r, tr) := tcpLoop env host rest
      (r, .tcpCall host p :: tr)

/-- `check_domain` from `test.py` (lines 146-189), as a function of the
domain, the `use_http` flag and the cascade environment.  The semaphore is
treated separately (see the scheduler model below); inside the permit the
code runs the cascade DNS → HTTP → TCP → Ping, never short-circuiting
after a success: HTTP runs iff `dns_ok and use_http`, TCP runs iff an IP
address was resolved, Ping always runs (target = resolved IP if present,
else the raw domain), and `is_alive` is the disjunction of the four detail
booleans.  The `except Exception` clause returns
`(domain, False, details)` with the details gathered so far.  The result
is paired with the ordered list of probe calls performed. -/
def check_domain (domain : String) (use_http : Bool) (env : CascadeEnv) :
    (String × Bool × Details) × List Call :=
  match env.dns with
  | .error _ => ((domain, false, Details.init), [.dnsCall])
  | .ok (dns_ok, ip) =>
    let d1 : Details := { Details.init with dns := dns_ok }
    let (r2, t2) : Except Details Details × List Call :=
      if dns_ok && use_http then
        match env.http with
        | .error _ => (.error d1, [.httpCall])
        | .ok b => (.ok { d1 with http := b }, [.httpCall])
      else (.ok d1, [])
    match r2 with
    | .error d => ((domain, false, d), .dnsCall :: t2)
    | .ok d2 =>
      let (r3, t3) : Except Details Details × List Call :=
        match ip with
        | none => (.ok d2, [])
        | some host =>
          match tcpLoop env host [443, 80] with
          | (.error _, tr) => (.error d2, tr)
          | (.ok b, tr) => (.ok { d2 with tcp := b }, tr)
      match r3 with
      | .error d => ((domain, false, d), .dnsCall :: (t2 ++ t3))
      | .ok d3 =>
        let target : String := match ip with | some a => a | none => domain
        match env.ping target with
        | .error _ => ((domain, false, d3), .dnsCall :: (t2 ++ t3 ++ [.pingCall target]))
        | .ok b =>
          let d4 : Details := { d3 with ping := b }
          let alive := d4.dns || d4.http || d4.tcp || d4.ping
          ((domain, alive, d4), .dnsCall :: (t2 ++ t3 ++ [.pingCall target]))

/-- `run_checks` from `test.py` (lines 192-238): one `check_domain` task
per domain, results consumed in completion order and appended to the
`alive` or `dead` list according to `is_alive`.  Completion order is an
arbitrary permutation of the input list, so the fold is taken over a
caller-supplied `order`; `envOf` gives each domain its cascade
environment.  (`check_domain` is total, so the defensive
`except Exception: continue` around `await coro` never fires and is not
modelled as dropping anything.) -/
def run_checks (order : List String) (use_http : Bool) (envOf : String → CascadeEnv) :
    List (String × Details) × List (String × Details) :=
  order.foldl
    (fun acc d =>
      let ((dom, is_alive, det), _) := check_domain d use_http (envOf d)
      if is_alive then (acc.1 ++ [(dom, det)], acc.2) else (acc.1, acc.2 ++ [(dom, det)]))
    ([], [])

/-! ## The DNS probe (`check_dns`, `test.py` lines 22-57) -/

/-- The fixed ordered resolver list `DNS_SERVERS = ('1.1.1.1', '8.8.8.8', '9.9.9.9')`. -/
def DNS_SERVERS : List String := ["1.1.1.1", "8.8.8.8", "9.9.9.9"]

/-- Answer of one A query in `check_dns`.  `err` is an
`aiodns.error.DNSError` or `asyncio.TimeoutError` (the two exception kinds
the code catches there); `found hosts` is a normal answer, whose record
list may in principle be empty (the code guards `if result:`). -/
inductive AAns where
  | err : AAns
  | found (hosts : List String) : AAns
deriving DecidableEq, Repr

/-- Environment of one `check_dns` run: the A answer and the SOA success
for every retry attempt and server (`soa i s = true` means the SOA query
to server `s` on attempt `i` succeeds; `false` means it raises one of the
two caught exception kinds). -/
structure DnsEnv where
  a : Nat → String → AAns
  soa : Nat → String → Bool

/-- Observable events of a `check_dns` run: the queries issued (attempt
index and server) and the `asyncio.sleep(0.5)` pauses. -/
inductive DnsEvent where
  | queryA (attempt : Nat) (server : String) : DnsEvent
  | querySOA (attempt : Nat) (server : String) : DnsEvent
  | sleepEv : DnsEvent
deriving DecidableEq, Repr

/-- The inner `for server in DNS_SERVERS` loop of `check_dns` for attempt
`i`: query the A record; on a non-empty answer return `(True, hosts[0])`
(modelled `some (some h)`); on an empty answer move to the next server; on
an exception fall back to a SOA query to the same server, returning
`(True, None)` (modelled `some none`) on SOA success and moving on
otherwise.  `none` means the round exhausted all servers. -/
def dnsRound (env : DnsEnv) (i : Nat) : List String → Option (Option String) × List DnsEvent
  | [] => (none, [])
  | s :: rest =>
    match env.a i s with
    | .found (h :: _) => (some (some h), [.queryA i s])
    | .found [] =>
      let (r, tr) := dnsRound env i rest
      (r, .queryA i s :: tr)
    | .err =>
      if env.soa i s then (some none, [.queryA i s, .querySOA i s])
      else
        let (r, tr) := dnsRound env i rest
        (r, .queryA i s :: .querySOA i s :: tr)

/-- The outer `for attempt in range(retries)` loop of `check_dns`: run the
round for attempt `i`; on failure sleep 0.5s before the next round
(`if attempt < retries - 1`), and return `(False, None)` after the last
round.  `rem` counts the attempts still to run. -/
def dnsAttempts (env : DnsEnv) (i : Nat) : Nat → (Bool × Option String) × List DnsEvent
  | 0 => ((false, none), [])
  | rem + 1 =>
    match dnsRound env i DNS_SERVERS with
    | (some addr, tr) => ((true, addr), tr)
    | (none, tr) =>
      match dnsAttempts env (i + 1) rem with
      | (r, tr2) => (r, tr ++ if rem = 0 then [] else DnsEvent.sleepEv :: tr2)

/-- `check_dns(domain, timeout, retries)` under environment `env`:
returns the `(success, ip_address)` pair and the event trace.  The domain
and timeout are absorbed into the environment. -/
def check_dns (env : DnsEnv) (retries : Nat := 2) : (Bool × Option String) × List DnsEvent :=
  dnsAttempts env 0 retries

/-! ## Exception routing inside the probes (§4.1 "never raise")

Each probe body is modelled twice: a *raw* body in which every network
call may raise (`Except Exc _`), and the probe itself, which is the raw
body wrapped in exactly the `try/except` clauses the Python code has.
"The probe never propagates an exception" is then the statement that the
wrapped probe returns `.ok` on the whole environment space (for
`check_dns`, on environments that raise only the two exception kinds its
`except (aiodns.error.DNSError, asyncio.TimeoutError)` clauses catch). -/

/-- Exception kinds relevant to the probes. -/
inductive Exc where
  | timeoutErr
  | dnsErr
  | connErr
  | osErr
  | otherErr
deriving DecidableEq, Repr

/-- Exception kinds caught by `except (aiodns.error.DNSError,
asyncio.TimeoutError)` in `check_dns`. -/
def dnsCaught : Exc → Bool
  | .dnsErr => true
  | .timeoutErr => true
  | _ => false

/-- What happens to the `ping` subprocess in `check_ping`: spawning may
raise, waiting may time out or raise, or the process exits with a code. -/
inductive PingEnv where
  | spawnFail (e : Exc)
  | waitTimeout
  | waitFail (e : Exc)
  | exited (code : Int)
deriving DecidableEq, Repr

/-- Raw body of `check_ping` (no handlers): spawn, bounded wait, compare
`proc.returncode == 0`. -/
def check_ping_raw : PingEnv → Except Exc Bool
  | .spawnFail e => .error e
  | .waitTimeout => .error .timeoutErr
  | .waitFail e => .error e
  | .exited code => .ok (code == 0)

/-- `check_ping` (`test.py` lines 60-86): the raw body under
`except asyncio.TimeoutError` (kill the process, return `False`) and
`except Exception` (return `False`). -/
def check_ping (env : PingEnv) : Except Exc Bool :=
  match check_ping_raw env with
  | .ok b => .ok b
  | .error .timeoutErr => .ok false
  | .error _ => .ok false

/-- One TCP connection attempt in `check_tcp_port`: either it establishes
(and the close/`wait_closed` sequence may still raise) or the
open/`wait_for` raises. -/
inductive TcpEnv where
  | connected (closeFail : Option Exc)
  | openFail (e : Exc)
deriving DecidableEq, Repr

/-- Raw body of `check_tcp_port` (no handler): open the connection within
the timeout, close it, return `True`. -/
def check_tcp_port_raw : TcpEnv → Except Exc Bool
  | .connected none => .ok true
  | .connected (some e) => .error e
  | .openFail e => .error e

/-- `check_tcp_port` (`test.py` lines 89-103): the raw body under
`except Exception` (return `False`). -/
def check_tcp_port (env : TcpEnv) : Except Exc Bool :=
  match check_tcp_port_raw env with
  | .ok b => .ok b
  | .error _ => .ok false

/-- Environment of `check_http`: whether building the session raises, and
for each scheme what the HEAD and GET requests do (`none` = the request
succeeds, `some e` = it raises `e`). -/
structure HttpEnv where
  sessionFail : Option Exc
  headReq : String → Option Exc
  getReq : String → Option Exc

/-- The `for scheme in ('https', 'http')` loop of `check_http`: try HEAD,
fall back to GET inside the inner `except Exception`, `continue` to the
next scheme if both raise, and return `False` after the loop. -/
def httpSchemes (env : HttpEnv) : List String → Bool
  | [] => false
  | scheme :: rest =>
    match env.headReq scheme with
    | none => true
    | some _ =>
      match env.getReq scheme with
      | none => true
      | some _ => httpSchemes env rest

/-- Raw body of `check_http` minus the inner per-request handlers (which
`httpSchemes` already contains, as the code has them): building the
session may raise; then the scheme loop runs. -/
def check_http_raw (env : HttpEnv) : Except Exc Bool :=
  match env.sessionFail with
  | some e => .error e
  | none => .ok (httpSchemes env ["https", "http"])

/-- `check_http` (`test.py` lines 106-143): the raw body under the outer
`except Exception: pass`, which falls through to `return False`. -/
def check_http (env : HttpEnv) : Except Exc Bool :=
  match check_http_raw env with
  | .ok b => .ok b
  | .error _ => .ok false

/-- Raw per-server step of `check_dns` with explicit exception routing:
the A query either answers or raises `e`; only when `dnsCaught e` does the
code enter the `except` clause and try the SOA query, which again either
succeeds or raises.  Result: `.ok (some r)` = return from `check_dns` with
`r`, `.ok none` = `continue` to the next server, `.error e` = an uncaught
exception propagates out of `check_dns`. -/
def dnsServerStep (aAns : Except Exc (List String)) (soaAns : Except Exc Unit) :
    Except Exc (Option (Bool × Option String)) :=
  match aAns with
  | .ok (h :: _) => .ok (some (true, some h))
  | .ok [] => .ok none
  | .error e =>
    if dnsCaught e then
      match soaAns with
      | .ok _ => .ok (some (true, none))
      | .error e2 => if dnsCaught e2 then .ok none else .error e2
    else .error e

/-! ## The concurrency limiter (`asyncio.Semaphore(concurrency)`)

`run_checks` creates all tasks eagerly; each `check_domain` task executes
`async with semaphore:` around its whole cascade (`test.py` lines 160,
208-215).  The interleaving of the tasks is modelled as a transition
system: a task is `waiting` until it is admitted, `running k` while its
cascade has `k` suspension points left, and `done` after releasing the
permit.  `acquire` consumes a permit (possible only when one is free) and
happens before the task's first probe; `release` returns the permit only
when the cascade is fully done. -/

/-- State of one evaluator task: `waiting k` = created, blocked on the
semaphore, its cascade will take `k` steps; `running k` = holds a permit
with `k` cascade steps left; `done` = finished, permit released. -/
inductive TaskState where
  | waiting (steps : Nat)
  | running (steps : Nat)
  | done
deriving DecidableEq, Repr

/-- Scheduler state: free permits of the semaphore plus the task list. -/
structure Sched where
  sem : Nat
  tasks : List TaskState
deriving DecidableEq, Repr

/-- Initial state of `run_checks` with concurrency `N` and one task per
domain (`work` lists the cascade lengths): `asyncio.Semaphore(N)` is full
and every task is created but not yet admitted. -/
def Sched.init (N : Nat) (work : List Nat) : Sched :=
  ⟨N, work.map TaskState.waiting⟩

/-- One scheduler transition: a waiting task acquires a permit (only when
one is free) and starts running; a running task performs one cascade step;
a task whose cascade is finished releases its permit and completes. -/
inductive SchedStep : Sched → Sched → Prop where
  | acquire (m k : Nat) (l r : List TaskState) :
      SchedStep ⟨m + 1, l ++ TaskState.waiting k :: r⟩ ⟨m, l ++ TaskState.running k :: r⟩
  | probe (m k : Nat) (l r : List TaskState) :
      SchedStep ⟨m, l ++ TaskState.running (k + 1) :: r⟩ ⟨m, l ++ TaskState.running k :: r⟩
  | release (m : Nat) (l r : List TaskState) :
      SchedStep ⟨m, l ++ TaskState.running 0 :: r⟩ ⟨m + 1, l ++ TaskState.done :: r⟩

/-- States reachable from `Sched.init N work` by scheduler transitions. -/
inductive SchedReach (N : Nat) (work : List Nat) : Sched → Prop where
  | init : SchedReach N work (Sched.init N work)
  | step {s t : Sched} : SchedReach N work s → SchedStep s t → SchedReach N work t

/-- Whether a task currently holds a permit (its cascade is in flight). -/
def TaskState.isRunning : TaskState → Bool
  | .running _ => true
  | _ => false

/-- Number of probe cascades simultaneously in flight. -/
def Sched.inFlight (s : Sched) : Nat :=
  s.tasks.countP (fun t => t.isRunning)

/-! ## Helper lemmas -/

/-- The verdict of the cascade for domain `d`: the `is_alive` component of
`check_domain`. -/
def aliveOf (u : Bool) (envOf : String → CascadeEnv) (d : String) : Bool :=
  ((check_domain d u (envOf d)).1).2.1

/-- The finalized details of the cascade for domain `d`. -/
def detOf (u : Bool) (envOf : String → CascadeEnv) (d : String) : Details :=
  ((check_domain d u (envOf d)).1).2.2

/-- Every return path of `check_domain` reports the input domain string
unchanged in the first component of the result triple. -/
lemma check_domain_fst (domain : String) (u : Bool) (env : CascadeEnv) :
    ((check_domain domain u env).1).1 = domain := by
  unfold check_domain
  rcases env.dns with _ | ⟨dok, ip⟩
  · rfl
  · dsimp only
    repeat' split
    all_goals simp_all

/-- `run_checks` is the filter/map of the completion order by the per-domain
verdict: alive domains in completion order on the left, dead ones on the
right, each paired with its finalized details. -/
lemma run_checks_eq (order : List String) (u : Bool) (envOf : String → CascadeEnv) :
    run_checks order u envOf =
      ((order.filter (aliveOf u envOf)).map (fun d => (d, detOf u envOf d)),
       (order.filter (fun d => !aliveOf u envOf d)).map (fun d => (d, detOf u envOf d))) := by
  suffices h : ∀ (l : List String) (acc : List (String × Details) × List (String × Details)),
      l.foldl (fun acc d =>
        let ((dom, is_alive, det), _) := check_domain d u (envOf d)
        if is_alive then (acc.1 ++ [(dom, det)], acc.2) else (acc.1, acc.2 ++ [(dom, det)]))
        acc
      = (acc.1 ++ (l.filter (aliveOf u envOf)).map (fun d => (d, detOf u envOf d)),
         acc.2 ++ (l.filter (fun d => !aliveOf u envOf d)).map (fun d => (d, detOf u envOf d)))
    by simpa [run_checks] using h order ([], [])
  intro l
  induction l with
  | nil => intro acc; simp
  | cons d l ih =>
    intro acc
    rcases hcd : check_domain d u (envOf d) with ⟨⟨dom, al, det⟩, tr⟩
    have hdom : dom = d := by
      have := check_domain_fst d u (envOf d)
      rw [hcd] at this
      exact this
    have hal : aliveOf u envOf d = al := by simp [aliveOf, hcd]
    have hdet : detOf u envOf d = det := by simp [detOf, hcd]
    subst hdom
    rcases al with _ | _
    · simp [List.foldl_cons, hcd, ih, hal, hdet]
    · simp [List.foldl_cons, hcd, ih, hal, hdet]

/-- C3.  For every non-empty input domain list and every completion order
(a permutation of the input), `run_checks` partitions the input: the sizes
of the alive and dead lists sum to the input size, the domains appearing
in the two partitions are exactly the input domains (as a multiset — none
dropped, none duplicated), and every input domain appears in exactly one
of the two partitions. -/
theorem c3_partition (domains order : List String) (u : Bool)
    (envOf : String → CascadeEnv) (_hne : domains ≠ []) (hperm : order.Perm domains) :
    ((run_checks order u envOf).1.length + (run_checks order u envOf).2.length
        = domains.length)
    ∧ (((run_checks order u envOf).1.map Prod.fst ++
        (run_checks order u envOf).2.map Prod.fst).Perm domains)
    ∧ (∀ d ∈ domains,
        (d ∈ (run_checks order u envOf).1.map Prod.fst
            ∧ d ∉ (run_checks order u envOf).2.map Prod.fst)
        ∨ (d ∈ (run_checks order u envOf).2.map Prod.fst
            ∧ d ∉ (run_checks order u envOf).1.map Prod.fst)) := by
  have hq := run_checks_eq order u envOf
  have hmapfst : ∀ (l : List String),
      (l.map (fun d => (d, detOf u envOf d))).map Prod.fst = l := by
    intro l
    induction l with
    | nil => rfl
    | cons a t ih => simp [ih]
  refine ⟨?_, ?_, ?_⟩
  · rw [hq]
    simp only [List.length_map]
    have := (List.filter_append_perm (aliveOf u envOf) order).length_eq
    rw [List.length_append] at this
    rw [this]
    exact hperm.length_eq
  · rw [hq]
    simp only [hmapfst]
    exact (List.filter_append_perm (aliveOf u envOf) order).trans hperm
  · intro d hd
    have hdo : d ∈ order := hperm.mem_iff.mpr hd
    rw [hq]
    simp only [hmapfst]
    cases hal : aliveOf u envOf d with
    | true =>
      exact Or.inl ⟨List.mem_filter.mpr ⟨hdo, hal⟩,
        fun hmem => by
          have hcontra := (List.mem_filter.mp hmem).2
          rw [hal] at hcontra
          simp at hcontra⟩
    | false =>
      exact Or.inr ⟨List.mem_filter.mpr ⟨hdo, by simp [hal]⟩,
        fun hmem => by
          have hcontra := (List.mem_filter.mp hmem).2
          rw [hal] at hcontra
          simp at hcontra⟩

/-- The final `details['tcp']` value of the cascade when no TCP call
raises: `false` when no address was resolved, else whether port 443 or
port 80 answered. -/
def tcpOf (tb : String → Nat → Bool) : Option String → Bool
  | none => false
  | some a => tb a 443 || tb a 80

/-- The ping target of the cascade: the resolved address if present, else
the raw domain (`target = ip_address if ip_address else domain`). -/
def targetOf (domain : String) : Option String → String
  | some a => a
  | none => domain

/-- Witness for `c3_partition` at a concrete two-domain batch with a
completion order different from the input order. -/
theorem c3_witness :
    (run_checks ["b", "a"] true
        (fun _ => ⟨.ok (true, none), .ok false, fun _ _ => .ok false,
          fun _ => .ok false⟩)).1.length
      + (run_checks ["b", "a"] true
        (fun _ => ⟨.ok (true, none), .ok false, fun _ _ => .ok false,
          fun _ => .ok false⟩)).2.length
      = (["a", "b"] : List String).length :=
  (c3_partition ["a", "b"] ["b", "a"] true
    (fun _ => ⟨.ok (true, none), .ok false, fun _ _ => .ok false, fun _ => .ok false⟩)
    (by simp) (List.Perm.swap "a" "b" [])).1

/-- Characterization of `check_domain` when no probe call raises: the
details record is `dns = dns_ok`, `http = dns_ok && use_http && <http
answer>`, `tcp = tcpOf`, `ping = <ping answer at the target>`, and
`is_alive` is the disjunction of the four. -/
lemma check_domain_spec (domain : String) (u : Bool) (env : CascadeEnv)
    (dok : Bool) (ip : Option String) (hb : Bool) (tb : String → Nat → Bool)
    (pb : String → Bool)
    (hdns : env.dns = .ok (dok, ip)) (hhttp : env.http = .ok hb)
    (htcp : ∀ h p, env.tcp h p = .ok (tb h p)) (hping : ∀ t, env.ping t = .ok (pb t)) :
    (check_domain domain u env).1 =
      (domain,
        (dok || ((dok && u) && hb) || tcpOf tb ip || pb (targetOf domain ip)),
        ⟨dok, (dok && u) && hb, tcpOf tb ip, pb (targetOf domain ip)⟩) := by
  cases ip with
  | none =>
    cases dok <;> cases u <;>
      simp [check_domain, hdns, hhttp, hping, tcpLoop, Details.init, tcpOf, targetOf]
  | some a =>
    cases dok <;> cases u <;> cases htb1 : tb a 443 <;> cases htb2 : tb a 80 <;>
      simp [check_domain, hdns, hhttp, hping, htcp, tcpLoop, htb1, htb2,
        Details.init, tcpOf, targetOf]

/-- C1 counterexample.  A domain whose DNS probe succeeds (with an
address) and whose HTTP probe succeeds: contrary to the claim, the
evaluator does not stop after HTTP — it still invokes the TCP probe and
the Ping probe, and the finalized detail record has `tcp = true` and
`ping = true` when those probes succeed. -/
theorem c1_counterexample :
    (check_domain "example.com" true
        ⟨.ok (true, some "93.184.216.34"), .ok true,
          fun _ _ => .ok true, fun _ => .ok true⟩)
      = (("example.com", true, ⟨true, true, true, true⟩),
         [Call.dnsCall, Call.httpCall, Call.tcpCall "93.184.216.34" 443,
          Call.pingCall "93.184.216.34"]) := by
  rfl

/-- C1 amended.  For every domain whose DNS probe succeeds and whose HTTP
probe succeeds (and no later probe call raises), the final verdict is
`alive = true`; the evaluator does not terminate early, however: the Ping
probe is always invoked, the TCP probe is invoked whenever DNS resolved an
address, and the detail record stores their actual results rather than
`false`. -/
theorem c1_amended (domain : String) (env : CascadeEnv) (ip : Option String)
    (tb : String → Nat → Bool) (pb : String → Bool)
    (hdns : env.dns = .ok (true, ip)) (hhttp : env.http = .ok true)
    (htcp : ∀ h p, env.tcp h p = .ok (tb h p)) (hping : ∀ t, env.ping t = .ok (pb t)) :
    ((check_domain domain true env).1).2.1 = true
    ∧ ((check_domain domain true env).1).2.2.dns = true
    ∧ ((check_domain domain true env).1).2.2.http = true
    ∧ Call.pingCall (targetOf domain ip) ∈ (check_domain domain true env).2
    ∧ (∀ a, ip = some a → Call.tcpCall a 443 ∈ (check_domain domain true env).2) := by
  have hspec := check_domain_spec domain true env true ip true tb pb hdns hhttp htcp hping
  refine ⟨?_, ?_, ?_, ?_, ?_⟩
  · simp [hspec]
  · simp [hspec]
  · simp [hspec]
  · cases ip with
    | none => simp [check_domain, hdns, hhttp, hping, targetOf]
    | some a =>
      cases htb1 : tb a 443 <;> cases htb2 : tb a 80 <;>
        simp [check_domain, hdns, hhttp, htcp, hping, tcpLoop, htb1, htb2, targetOf]
  · intro a ha
    subst ha
    cases htb1 : tb a 443 <;> cases htb2 : tb a 80 <;>
      simp [check_domain, hdns, hhttp, htcp, hping, tcpLoop, htb1, htb2]

/-- Witness for `c1_amended` at a concrete environment. -/
theorem c1_witness :
    ((check_domain "example.com" true
        ⟨.ok (true, some "93.184.216.34"), .ok true,
          fun _ _ => .ok false, fun _ => .ok false⟩).1).2.1 = true :=
  (c1_amended "example.com"
    ⟨.ok (true, some "93.184.216.34"), .ok true,
      fun _ _ => .ok false, fun _ => .ok false⟩
    (some "93.184.216.34") (fun _ _ => false) (fun _ => false)
    rfl rfl (fun _ _ => rfl) (fun _ => rfl)).1

/-- C2 counterexample.  DNS succeeds with a resolved address, HTTP fails,
TCP fails on both ports, and Ping also fails: the claim says the verdict
equals the ping result (dead here), but the code classifies the domain
alive, because the successful DNS probe alone already makes `is_alive`
true. -/
theorem c2_counterexample :
    ((check_domain "d.example" true
        ⟨.ok (true, some "1.2.3.4"), .ok false,
          fun _ _ => .ok false, fun _ => .ok false⟩).1)
      = ("d.example", true, ⟨true, false, false, false⟩) := by
  rfl

/-- C2 amended.  When DNS succeeds with a resolved address, HTTP fails and
TCP fails on both ports, the Ping probe is invoked with the resolved
address as target and its result is recorded — but the final verdict is
`alive = true` regardless of the ping outcome, because DNS success alone
already makes the disjunction true. -/
theorem c2_amended (domain a : String) (u : Bool) (env : CascadeEnv) (b : Bool)
    (hdns : env.dns = .ok (true, some a)) (hhttp : env.http = .ok false)
    (htcp443 : env.tcp a 443 = .ok false) (htcp80 : env.tcp a 80 = .ok false)
    (hping : env.ping a = .ok b) :
    (check_domain domain u env).1 = (domain, true, ⟨true, false, false, b⟩)
    ∧ Call.pingCall a ∈ (check_domain domain u env).2 := by
  cases u <;>
    simp [check_domain, hdns, hhttp, htcp443, htcp80, hping, tcpLoop, Details.init]

/-- Witness for `c2_amended` at a concrete environment. -/
theorem c2_witness :
    (check_domain "d.example" true
        ⟨.ok (true, some "1.2.3.4"), .ok false,
          fun _ _ => .ok false, fun _ => .ok false⟩).1
      = ("d.example", true, ⟨true, false, false, false⟩) :=
  (c2_amended "d.example" "1.2.3.4" true
    ⟨.ok (true, some "1.2.3.4"), .ok false, fun _ _ => .ok false, fun _ => .ok false⟩
    false rfl rfl rfl rfl rfl).1

/-- A failed `check_dns` never reports an address: every return path of the
retry loop yields either `(True, _)` or exactly `(False, None)`. -/
lemma dnsAttempts_false_none (env : DnsEnv) (n : Nat) :
    ∀ i, ((dnsAttempts env i n).1).1 = false → (dnsAttempts env i n).1 = (false, none) := by
  induction n with
  | zero => intro i _; rfl
  | succ rem ih =>
    intro i h
    simp only [dnsAttempts] at h ⊢
    rcases hr : dnsRound env i DNS_SERVERS with ⟨o, tr⟩
    rw [hr] at h
    cases o with
    | some addr => simp at h
    | none =>
      rcases hx : dnsAttempts env (i + 1) rem with ⟨r, tr2⟩
      rw [hx] at h
      have hih := ih (i + 1)
      rw [hx] at hih
      exact hih h

/-- C5.  (a) A DNS probe that fails carries no resolved address, so after
a failed DNS probe `ip_address` is `None`; (b) consequently, for every
domain whose DNS probe fails, neither the HTTP probe nor the TCP probe is
invoked — the cascade invokes exactly the DNS probe and then the Ping
probe with the raw domain name as target — and the verdict equals the
ping result. -/
theorem c5_dns_fail_only_ping :
    (∀ (denv : DnsEnv) (r : Nat),
        (((check_dns denv r).1).1 = false → ((check_dns denv r).1) = (false, none)))
    ∧ (∀ (domain : String) (u : Bool) (env : CascadeEnv) (b : Bool),
        env.dns = .ok (false, none) → env.ping domain = .ok b →
        check_domain domain u env
          = ((domain, b, ⟨false, false, false, b⟩), [Call.dnsCall, Call.pingCall domain])) := by
  constructor
  · intro denv r h
    exact dnsAttempts_false_none denv r 0 h
  · intro domain u env b hdns hping
    cases u <;> simp [check_domain, hdns, hping, Details.init]

/-- Witness for `c5_dns_fail_only_ping` at a concrete environment: DNS
failed, ping fails too, so the domain is dead and only DNS and Ping were
invoked. -/
theorem c5_witness :
    check_domain "ghost.invalid" true
        ⟨.ok (false, none), .ok true, fun _ _ => .ok true, fun _ => .ok false⟩
      = (("ghost.invalid", false, ⟨false, false, false, false⟩),
         [Call.dnsCall, Call.pingCall "ghost.invalid"]) :=
  c5_dns_fail_only_ping.2 "ghost.invalid" true
    ⟨.ok (false, none), .ok true, fun _ _ => .ok true, fun _ => .ok false⟩
    false rfl rfl

/-- C6.  A domain whose DNS probe succeeds without an address (SOA-only):
even when HTTP fails (or is disabled), TCP is skipped (no address) and
Ping fails, the verdict is alive — the zone-exists signal alone keeps the
domain. -/
theorem c6_soa_only_alive (domain : String) (u : Bool) (env : CascadeEnv)
    (hdns : env.dns = .ok (true, none))
    (hhttp : env.http = .ok false ∨ u = false)
    (hping : env.ping domain = .ok false) :
    (check_domain domain u env).1 = (domain, true, ⟨true, false, false, false⟩) := by
  rcases hhttp with hh | hu
  · cases u <;> simp [check_domain, hdns, hh, hping, Details.init]
  · subst hu
    simp [check_domain, hdns, hping, Details.init]

/-- Witness for `c6_soa_only_alive` at a concrete environment. -/
theorem c6_witness :
    (check_domain "cdn-root.example" true
        ⟨.ok (true, none), .ok false, fun _ _ => .ok true, fun _ => .ok false⟩).1
      = ("cdn-root.example", true, ⟨true, false, false, false⟩) :=
  c6_soa_only_alive "cdn-root.example" true
    ⟨.ok (true, none), .ok false, fun _ _ => .ok true, fun _ => .ok false⟩
    rfl (Or.inl rfl) rfl

/-- A details record whose four fields are all `false` is the initial
record. -/
lemma Details.eq_init (d : Details) (h1 : d.dns = false) (h2 : d.http = false)
    (h3 : d.tcp = false) (h4 : d.ping = false) : d = Details.init := by
  cases d
  simp_all [Details.init]

/-- C8.  An unexpected exception escaping a probe call inside one domain's
cascade is contained: the evaluator still returns a terminal result for
that domain with `alive = false` and the details gathered before the
exception, and the batch still gives every domain a slot in one of the two
partitions.  The conjuncts inject the exception at each probe call site in
turn: DNS, HTTP, TCP (first port), Ping. -/
theorem c8_exception_containment :
    (∀ (domain : String) (u : Bool) (env : CascadeEnv), env.dns = .error () →
      check_domain domain u env = ((domain, false, Details.init), [Call.dnsCall]))
    ∧ (∀ (domain : String) (env : CascadeEnv) (ip : Option String),
        env.dns = .ok (true, ip) → env.http = .error () →
        (check_domain domain true env).1 = (domain, false, ⟨true, false, false, false⟩))
    ∧ (∀ (domain a : String) (env : CascadeEnv) (hb : Bool),
        env.dns = .ok (true, some a) → env.http = .ok hb → env.tcp a 443 = .error () →
        (check_domain domain true env).1 = (domain, false, ⟨true, hb, false, false⟩))
    ∧ (∀ (domain a : String) (env : CascadeEnv) (hb tb1 tb2 : Bool),
        env.dns = .ok (true, some a) → env.http = .ok hb →
        env.tcp a 443 = .ok tb1 → env.tcp a 80 = .ok tb2 → env.ping a = .error () →
        (check_domain domain true env).1 = (domain, false, ⟨true, hb, tb1 || tb2, false⟩))
    ∧ (∀ (order : List String) (u : Bool) (envOf : String → CascadeEnv),
        (run_checks order u envOf).1.length + (run_checks order u envOf).2.length
          = order.length) := by
  refine ⟨?_, ?_, ?_, ?_, ?_⟩
  · intro domain u env hdns
    simp [check_domain, hdns]
  · intro domain env ip hdns hhttp
    simp [check_domain, hdns, hhttp, Details.init]
  · intro domain a env hb hdns hhttp htcp
    simp [check_domain, hdns, hhttp, htcp, tcpLoop, Details.init]
  · intro domain a env hb tb1 tb2 hdns hhttp htcp1 htcp2 hping
    cases tb1 <;> cases tb2 <;>
      simp [check_domain, hdns, hhttp, htcp1, htcp2, hping, tcpLoop, Details.init]
  · intro order u envOf
    rw [run_checks_eq]
    simp only [List.length_map]
    have := (List.filter_append_perm (aliveOf u envOf) order).length_eq
    rw [List.length_append] at this
    exact this

/-- Witness for `c8_exception_containment`: an exception in the HTTP probe
after a successful DNS probe yields a dead verdict with the DNS detail
preserved. -/
theorem c8_witness :
    (check_domain "x.example" true
        ⟨.ok (true, some "1.2.3.4"), .error (),
          fun _ _ => .ok true, fun _ => .ok true⟩).1
      = ("x.example", false, ⟨true, false, false, false⟩) :=
  c8_exception_containment.2.1 "x.example"
    ⟨.ok (true, some "1.2.3.4"), .error (), fun _ _ => .ok true, fun _ => .ok true⟩
    (some "1.2.3.4") rfl rfl

/-- An environment in which no probe call raises an unexpected exception. -/
def CascadeEnv.Total (env : CascadeEnv) : Prop :=
  (∃ v, env.dns = .ok v) ∧ (∃ b, env.http = .ok b)
    ∧ (∀ h p, ∃ b, env.tcp h p = .ok b) ∧ (∀ t, ∃ b, env.ping t = .ok b)

/-- Value extraction of a non-raising probe call. -/
def exVal : Except Unit Bool → Bool
  | .ok b => b
  | .error _ => false

/-- C10.  When no unexpected exception occurs during the cascade:
(a) the verdict is exactly the disjunction of the four recorded detail
booleans; (b) a domain whose DNS probe succeeds is classified alive no
matter what HTTP, TCP and Ping answer; (c) every domain in the dead
partition of `run_checks` has all four detail booleans `false`. -/
theorem c10_alive_is_disjunction :
    (∀ (domain : String) (u : Bool) (env : CascadeEnv), env.Total →
      ((check_domain domain u env).1).2.1
        = (((check_domain domain u env).1).2.2.dns
            || ((check_domain domain u env).1).2.2.http
            || ((check_domain domain u env).1).2.2.tcp
            || ((check_domain domain u env).1).2.2.ping))
    ∧ (∀ (domain : String) (u : Bool) (env : CascadeEnv) (ip : Option String),
        env.Total → env.dns = .ok (true, ip) →
        ((check_domain domain u env).1).2.1 = true)
    ∧ (∀ (order : List String) (u : Bool) (envOf : String → CascadeEnv),
        (∀ d, (envOf d).Total) →
        ∀ p ∈ (run_checks order u envOf).2, p.2 = Details.init) := by
  have key : ∀ (domain : String) (u : Bool) (env : CascadeEnv), env.Total →
      ∃ (dok : Bool) (ip : Option String),
        env.dns = .ok (dok, ip) ∧
        (check_domain domain u env).1 =
          (domain,
            (dok || ((dok && u) && exVal env.http)
              || tcpOf (fun h p => exVal (env.tcp h p)) ip
              || exVal (env.ping (targetOf domain ip))),
            ⟨dok, (dok && u) && exVal env.http,
              tcpOf (fun h p => exVal (env.tcp h p)) ip,
              exVal (env.ping (targetOf domain ip))⟩) := by
    intro domain u env hT
    obtain ⟨⟨⟨dok, ip⟩, hdns⟩, ⟨hb, hhttp⟩, htcp, hping⟩ := hT
    refine ⟨dok, ip, hdns, ?_⟩
    refine check_domain_spec domain u env dok ip (exVal env.http)
      (fun h p => exVal (env.tcp h p)) (fun t => exVal (env.ping t)) hdns ?_ ?_ ?_
    · simp [hhttp, exVal]
    · intro h p
      obtain ⟨b, hb'⟩ := htcp h p
      simp [hb', exVal]
    · intro t
      obtain ⟨b, hb'⟩ := hping t
      simp [hb', exVal]
  refine ⟨?_, ?_, ?_⟩
  · intro domain u env hT
    obtain ⟨dok, ip, _, hspec⟩ := key domain u env hT
    rw [hspec]
  · intro domain u env ip hT hdns
    obtain ⟨dok, ip', hdns', hspec⟩ := key domain u env hT
    rw [hdns] at hdns'
    injection hdns' with hpair
    injection hpair with hdok hip
    rw [hspec, ← hdok]
    rfl
  · intro order u envOf hT p hp
    rw [run_checks_eq] at hp
    simp only [List.mem_map, List.mem_filter] at hp
    obtain ⟨d, ⟨_, hdead⟩, rfl⟩ := hp
    obtain ⟨dok, ip, hdns', hspec⟩ := key d u (envOf d) (hT d)
    have halive : aliveOf u envOf d = false := by simpa using hdead
    simp only [aliveOf, hspec] at halive
    simp only [detOf, hspec]
    simp only [Bool.or_eq_false_iff] at halive
    exact Details.eq_init _ halive.1.1.1 halive.1.1.2 halive.1.2 halive.2

/-- Witness for `c10_alive_is_disjunction`: a total environment where only
TCP port 80 answers; the verdict equals the recorded disjunction. -/
theorem c10_witness :
    ((check_domain "w.example" true
        ⟨.ok (true, some "5.6.7.8"), .ok false,
          fun _ p => .ok (p == 80), fun _ => .ok false⟩).1).2.1
      = (((check_domain "w.example" true
        ⟨.ok (true, some "5.6.7.8"), .ok false,
          fun _ p => .ok (p == 80), fun _ => .ok false⟩).1).2.2.dns
          || ((check_domain "w.example" true
        ⟨.ok (true, some "5.6.7.8"), .ok false,
          fun _ p => .ok (p == 80), fun _ => .ok false⟩).1).2.2.http
          || ((check_domain "w.example" true
        ⟨.ok (true, some "5.6.7.8"), .ok false,
          fun _ p => .ok (p == 80), fun _ => .ok false⟩).1).2.2.tcp
          || ((check_domain "w.example" true
        ⟨.ok (true, some "5.6.7.8"), .ok false,
          fun _ p => .ok (p == 80), fun _ => .ok false⟩).1).2.2.ping) :=
  c10_alive_is_disjunction.1 "w.example" true
    ⟨.ok (true, some "5.6.7.8"), .ok false, fun _ p => .ok (p == 80), fun _ => .ok false⟩
    ⟨⟨(true, some "5.6.7.8"), rfl⟩, ⟨false, rfl⟩,
      fun _ p => ⟨p == 80, rfl⟩, fun _ => ⟨false, rfl⟩⟩

/-- C7.  For every ordinary network failure, each probe folds the failure
into a boolean result instead of propagating an exception:
`check_ping` (whose `except` clauses catch timeout and any other
exception, spawn failure included), `check_tcp_port` and `check_http`
(whose `except Exception` clauses catch everything) return `.ok` on their
whole environment space; the per-server step of `check_dns` returns `.ok`
whenever the A and SOA queries raise only the kinds its
`except (aiodns.error.DNSError, asyncio.TimeoutError)` clauses catch.
Moreover every failure mode yields the failure value `false`. -/
theorem c7_probes_never_raise :
    (∀ pe : PingEnv, ∃ b, check_ping pe = .ok b)
    ∧ (∀ (e : Exc), check_ping (.spawnFail e) = .ok false
        ∧ check_ping .waitTimeout = .ok false ∧ check_ping (.waitFail e) = .ok false)
    ∧ (∀ te : TcpEnv, ∃ b, check_tcp_port te = .ok b)
    ∧ (∀ e : Exc, check_tcp_port (.openFail e) = .ok false)
    ∧ (∀ he : HttpEnv, ∃ b, check_http he = .ok b)
    ∧ (∀ (aAns : Except Exc (List String)) (soaAns : Except Exc Unit),
        (∀ e, aAns = .error e → dnsCaught e = true) →
        (∀ e, soaAns = .error e → dnsCaught e = true) →
        ∃ r, dnsServerStep aAns soaAns = .ok r) := by
  refine ⟨?_, ?_, ?_, ?_, ?_, ?_⟩
  · intro pe
    cases pe with
    | spawnFail e => cases e <;> exact ⟨false, rfl⟩
    | waitTimeout => exact ⟨false, rfl⟩
    | waitFail e => cases e <;> exact ⟨false, rfl⟩
    | exited code => exact ⟨code == 0, rfl⟩
  · intro e
    refine ⟨?_, rfl, ?_⟩ <;> cases e <;> rfl
  · intro te
    cases te with
    | connected c =>
      cases c with
      | none => exact ⟨true, rfl⟩
      | some e => cases e <;> exact ⟨false, rfl⟩
    | openFail e => cases e <;> exact ⟨false, rfl⟩
  · intro e
    cases e <;> rfl
  · intro he
    rcases he with ⟨sf, hr, gr⟩
    cases sf with
    | none => exact ⟨httpSchemes ⟨none, hr, gr⟩ ["https", "http"], rfl⟩
    | some e => cases e <;> exact ⟨false, rfl⟩
  · intro aAns soaAns ha hsoa
    cases aAns with
    | ok hosts => cases hosts <;> exact ⟨_, rfl⟩
    | error e =>
      have hae := ha e rfl
      cases soaAns with
      | ok _ => exact ⟨some (true, none), by simp [dnsServerStep, hae]⟩
      | error e2 =>
        have hse := hsoa e2 rfl
        exact ⟨none, by simp [dnsServerStep, hae, hse]⟩

/-- Witness for `c7_probes_never_raise` at concrete failure inputs. -/
theorem c7_witness :
    (∃ b, check_ping (.spawnFail .osErr) = .ok b)
    ∧ (∃ b, check_tcp_port (.openFail .connErr) = .ok b)
    ∧ (∃ b, check_http ⟨some .timeoutErr, fun _ => some .connErr, fun _ => some .connErr⟩
        = .ok b)
    ∧ (∃ r, dnsServerStep (.error .dnsErr) (.error .timeoutErr) = .ok r) :=
  ⟨c7_probes_never_raise.1 (.spawnFail .osErr),
   c7_probes_never_raise.2.2.1 (.openFail .connErr),
   c7_probes_never_raise.2.2.2.2.1 ⟨some .timeoutErr, fun _ => some .connErr, fun _ => some .connErr⟩,
   c7_probes_never_raise.2.2.2.2.2 (.error .dnsErr) (.error .timeoutErr)
     (fun _ he => by injection he with h2; rw [← h2]; rfl)
     (fun _ he => by injection he with h2; rw [← h2]; rfl)⟩

/-- The semaphore invariant: free permits plus in-flight cascades always
equal the concurrency limit `N`. -/
lemma sched_invariant {N : Nat} {work : List Nat} {s : Sched}
    (h : SchedReach N work s) : s.sem + s.inFlight = N := by
  induction h with
  | init =>
    have hzero : List.countP (fun t => t.isRunning) (work.map TaskState.waiting) = 0 := by
      rw [List.countP_eq_zero]
      intro a ha
      obtain ⟨x, _, rfl⟩ := List.mem_map.mp ha
      simp [TaskState.isRunning]
    simp [Sched.init, Sched.inFlight, hzero]
  | step _ hstep ih =>
    cases hstep with
    | acquire m k l r =>
      simp [Sched.inFlight, List.countP_append, List.countP_cons,
        TaskState.isRunning] at ih ⊢
      omega
    | probe m k l r =>
      simp [Sched.inFlight, List.countP_append, List.countP_cons,
        TaskState.isRunning] at ih ⊢
      omega
    | release m l r =>
      simp [Sched.inFlight, List.countP_append, List.countP_cons,
        TaskState.isRunning] at ih ⊢
      omega

/-- C9.  For every concurrency limit `N`, in every state the scheduler can
reach from the initial state of `run_checks` (all tasks created eagerly,
semaphore full), at most `N` probe cascades are simultaneously in flight:
a task acquires a permit before its first probe and releases it only when
its cascade is fully done, so the permit count bounds the in-flight
count. -/
theorem c9_concurrency_bound (N : Nat) (work : List Nat) (s : Sched)
    (h : SchedReach N work s) : s.inFlight ≤ N := by
  have := sched_invariant h
  omega

/-- Witness for `c9_concurrency_bound`: limit 1, two tasks, after the
first task is admitted. -/
theorem c9_witness :
    (Sched.mk 0 [TaskState.running 2, TaskState.waiting 3]).inFlight ≤ 1 :=
  c9_concurrency_bound 1 [2, 3] ⟨0, [TaskState.running 2, TaskState.waiting 3]⟩
    (SchedReach.step SchedReach.init
      (SchedStep.acquire 0 2 [] [TaskState.waiting 3]))

/-! ## Structure of the `check_dns` retry loop (claim C4) -/

/-- A position (attempt, server) at which `check_dns` obtains nothing:
either the A query answered with an empty record list (the `if result:`
guard fails and the code moves on without the SOA fallback), or the A
query raised and the SOA fallback failed too. -/
def deadPos (env : DnsEnv) (i : Nat) (s : String) : Prop :=
  env.a i s = .found [] ∨ (env.a i s = .err ∧ env.soa i s = false)

/-- The server of an A-query event of attempt `i`. -/
def aQueryAt (i : Nat) : DnsEvent → Option String
  | .queryA j s => if j = i then some s else none
  | _ => none

/-- Every event of one round of attempt `i` is an A or SOA query of
attempt `i` to a server of the scanned list. -/
lemma dnsRound_events (env : DnsEnv) (i : Nat) (ss : List String) :
    ∀ e ∈ (dnsRound env i ss).2,
      ∃ s, (e = .queryA i s ∨ e = .querySOA i s) ∧ s ∈ ss := by
  induction ss with
  | nil => simp [dnsRound]
  | cons s rest ih =>
    intro e he
    cases ha : env.a i s with
    | err =>
      cases hsoa : env.soa i s with
      | true =>
        rw [dnsRound, ha, hsoa] at he
        simp only [if_true, List.mem_cons, List.not_mem_nil, or_false] at he
        rcases he with he | he
        · exact ⟨s, Or.inl he, List.mem_cons_self s rest⟩
        · exact ⟨s, Or.inr he, List.mem_cons_self s rest⟩
      | false =>
        rw [dnsRound, ha, hsoa] at he
        simp only [Bool.false_eq_true, if_false, List.mem_cons] at he
        rcases he with he | he | he
        · exact ⟨s, Or.inl he, List.mem_cons_self s rest⟩
        · exact ⟨s, Or.inr he, List.mem_cons_self s rest⟩
        · obtain ⟨s', hs', hmem⟩ := ih e he
          exact ⟨s', hs', List.mem_cons_of_mem s hmem⟩
    | found hosts =>
      cases hosts with
      | nil =>
        rw [dnsRound, ha] at he
        simp only [List.mem_cons] at he
        rcases he with he | he
        · exact ⟨s, Or.inl he, List.mem_cons_self s rest⟩
        · obtain ⟨s', hs', hmem⟩ := ih e he
          exact ⟨s', hs', List.mem_cons_of_mem s hmem⟩
      | cons h t =>
        rw [dnsRound, ha] at he
        simp only [List.mem_cons, List.not_mem_nil, or_false] at he
        exact ⟨s, Or.inl he, List.mem_cons_self s rest⟩

/-- One round exhausts the server list (`none`) exactly when every server
of the list is a dead position for this attempt. -/
lemma dnsRound_none_iff (env : DnsEnv) (i : Nat) (ss : List String) :
    (dnsRound env i ss).1 = none ↔ ∀ s ∈ ss, deadPos env i s := by
  induction ss with
  | nil => simp [dnsRound]
  | cons s rest ih =>
    cases ha : env.a i s with
    | err =>
      cases hsoa : env.soa i s with
      | true => simp [dnsRound, ha, hsoa, deadPos]
      | false => simp [dnsRound, ha, hsoa, deadPos, ih]
    | found hosts =>
      cases hosts with
      | nil => simp [dnsRound, ha, deadPos, ih]
      | cons h t => simp [dnsRound, ha, deadPos]

/-- A round that returns an address got it from the head of a non-empty A
answer of some scanned server. -/
lemma dnsRound_some_addr (env : DnsEnv) (i : Nat) (ss : List String) (h : String) :
    (dnsRound env i ss).1 = some (some h) →
      ∃ s ∈ ss, ∃ t, env.a i s = .found (h :: t) := by
  induction ss with
  | nil => simp [dnsRound]
  | cons s rest ih =>
    intro hr
    cases ha : env.a i s with
    | err =>
      cases hsoa : env.soa i s with
      | true => rw [dnsRound, ha, hsoa] at hr; simp at hr
      | false =>
        rw [dnsRound, ha, hsoa] at hr
        simp only [Bool.false_eq_true, if_false] at hr
        obtain ⟨s', hs', t, h'⟩ := ih hr
        exact ⟨s', List.mem_cons_of_mem s hs', t, h'⟩
    | found hosts =>
      cases hosts with
      | nil =>
        rw [dnsRound, ha] at hr
        obtain ⟨s', hs', t, h'⟩ := ih hr
        exact ⟨s', List.mem_cons_of_mem s hs', t, h'⟩
      | cons h0 t0 =>
        rw [dnsRound, ha] at hr
        simp only [Option.some.injEq] at hr
        exact ⟨s, List.mem_cons_self s rest, t0, by rw [ha, ← hr]⟩

/-- A round that returns success without an address got it from a SOA
fallback that succeeded after a raising A query. -/
lemma dnsRound_some_none (env : DnsEnv) (i : Nat) (ss : List String) :
    (dnsRound env i ss).1 = some none →
      ∃ s ∈ ss, env.a i s = .err ∧ env.soa i s = true := by
  induction ss with
  | nil => simp [dnsRound]
  | cons s rest ih =>
    intro hr
    cases ha : env.a i s with
    | err =>
      cases hsoa : env.soa i s with
      | true => exact ⟨s, List.mem_cons_self s rest, ha, hsoa⟩
      | false =>
        rw [dnsRound, ha, hsoa] at hr
        simp only [Bool.false_eq_true, if_false] at hr
        obtain ⟨s', hs', h'⟩ := ih hr
        exact ⟨s', List.mem_cons_of_mem s hs', h'⟩
    | found hosts =>
      cases hosts with
      | nil =>
        rw [dnsRound, ha] at hr
        obtain ⟨s', hs', h'⟩ := ih hr
        exact ⟨s', List.mem_cons_of_mem s hs', h'⟩
      | cons h0 t0 => rw [dnsRound, ha] at hr; simp at hr

/-- Every SOA query of a round is sent to a server of attempt `i` whose A
query raised (the fallback, same server, same attempt). -/
lemma dnsRound_soa_mem (env : DnsEnv) (i : Nat) (ss : List String) :
    ∀ j s', DnsEvent.querySOA j s' ∈ (dnsRound env i ss).2 →
      j = i ∧ env.a i s' = .err ∧ s' ∈ ss := by
  induction ss with
  | nil => simp [dnsRound]
  | cons s rest ih =>
    intro j s' he
    cases ha : env.a i s with
    | err =>
      cases hsoa : env.soa i s with
      | true =>
        rw [dnsRound, ha, hsoa] at he
        simp only [if_true, List.mem_cons, List.not_mem_nil, or_false] at he
        rcases he with he | he
        · exact absurd he (by simp)
        · obtain ⟨hj, hs⟩ : j = i ∧ s' = s := by
            injection he with h1 h2
            exact ⟨h1, h2⟩
          subst hj; subst hs
          exact ⟨rfl, ha, List.mem_cons_self _ _⟩
      | false =>
        rw [dnsRound, ha, hsoa] at he
        simp only [Bool.false_eq_true, if_false, List.mem_cons] at he
        rcases he with he | he | he
        · exact absurd he (by simp)
        · obtain ⟨hj, hs⟩ : j = i ∧ s' = s := by
            injection he with h1 h2
            exact ⟨h1, h2⟩
          subst hj; subst hs
          exact ⟨rfl, ha, List.mem_cons_self _ _⟩
        · obtain ⟨hj, ha', hmem⟩ := ih j s' he
          exact ⟨hj, ha', List.mem_cons_of_mem s hmem⟩
    | found hosts =>
      cases hosts with
      | nil =>
        rw [dnsRound, ha] at he
        simp only [List.mem_cons] at he
        rcases he with he | he
        · exact absurd he (by simp)
        · obtain ⟨hj, ha', hmem⟩ := ih j s' he
          exact ⟨hj, ha', List.mem_cons_of_mem s hmem⟩
      | cons h0 t0 =>
        rw [dnsRound, ha] at he
        simp only [List.mem_cons, List.not_mem_nil, or_false] at he
        exact absurd he (by simp)

/-- `aQueryAt` selects the server of a same-attempt A query. -/
lemma aQueryAt_self (i : Nat) (s : String) : aQueryAt i (.queryA i s) = some s := by
  simp [aQueryAt]

/-- `aQueryAt` ignores A queries of other attempts. -/
lemma aQueryAt_other (i j : Nat) (s : String) (h : ¬ j = i) :
    aQueryAt i (.queryA j s) = none := by
  simp [aQueryAt, h]

/-- `aQueryAt` ignores SOA queries. -/
lemma aQueryAt_soa (i j : Nat) (s : String) : aQueryAt i (.querySOA j s) = none := rfl

/-- `aQueryAt` ignores sleeps. -/
lemma aQueryAt_sleep (i : Nat) : aQueryAt i .sleepEv = none := rfl

/-- Within one round, the A queries visit an in-order prefix of the
scanned server list. -/
lemma dnsRound_aqueries_prefix (env : DnsEnv) (i : Nat) (ss : List String) :
    ((dnsRound env i ss).2.filterMap (aQueryAt i)) <+: ss := by
  induction ss with
  | nil => simp [dnsRound]
  | cons s rest ih =>
    cases ha : env.a i s with
    | err =>
      cases hsoa : env.soa i s with
      | true =>
        rw [dnsRound, ha, hsoa]
        simp only [if_true, List.filterMap_cons, aQueryAt_self, aQueryAt_soa,
          List.filterMap_nil]
        exact ⟨rest, rfl⟩
      | false =>
        rw [dnsRound, ha, hsoa]
        simp only [Bool.false_eq_true, if_false, List.filterMap_cons,
          aQueryAt_self, aQueryAt_soa]
        obtain ⟨t, ht⟩ := ih
        exact ⟨t, by simp [ht]⟩
    | found hosts =>
      cases hosts with
      | nil =>
        rw [dnsRound, ha]
        simp only [List.filterMap_cons, aQueryAt_self]
        obtain ⟨t, ht⟩ := ih
        exact ⟨t, by simp [ht]⟩
      | cons h0 t0 =>
        rw [dnsRound, ha]
        simp only [List.filterMap_cons, aQueryAt_self, List.filterMap_nil]
        exact ⟨rest, rfl⟩

/-- The retry loop returns `(False, None)` exactly when every server of
every executed attempt is a dead position. -/
lemma dnsAttempts_false_iff (env : DnsEnv) (n : Nat) :
    ∀ i, (dnsAttempts env i n).1 = (false, none) ↔
      ∀ j, i ≤ j → j < i + n → ∀ s ∈ DNS_SERVERS, deadPos env j s := by
  induction n with
  | zero =>
    intro i
    constructor
    · intro _ j hij hj s hs
      omega
    · intro _
      rfl
  | succ rem ih =>
    intro i
    simp only [dnsAttempts]
    rcases hr : dnsRound env i DNS_SERVERS with ⟨o, tr⟩
    cases o with
    | some addr =>
      constructor
      · intro h
        exact absurd h (by simp)
      · intro hall
        have hnone : (dnsRound env i DNS_SERVERS).1 = none :=
          (dnsRound_none_iff env i DNS_SERVERS).mpr
            (fun s hs => hall i le_rfl (by omega) s hs)
        rw [hr] at hnone
        simp at hnone
    | none =>
      rcases hx : dnsAttempts env (i + 1) rem with ⟨r2, tr2⟩
      have hiff := ih (i + 1)
      rw [hx] at hiff
      constructor
      · intro h j hij hj s hs
        rcases Nat.eq_or_lt_of_le hij with rfl | hlt
        · exact (dnsRound_none_iff env i DNS_SERVERS).mp (by rw [hr]) s hs
        · exact hiff.mp h j hlt (by omega) s hs
      · intro hall
        exact hiff.mpr (fun j hij hj s hs => hall j (by omega) (by omega) s hs)

/-- A retry loop that returns an address got it from the head of a
non-empty A answer of some executed attempt and scanned server. -/
lemma dnsAttempts_true_addr (env : DnsEnv) (n : Nat) :
    ∀ i h, (dnsAttempts env i n).1 = (true, some h) →
      ∃ j, i ≤ j ∧ j < i + n ∧ ∃ s ∈ DNS_SERVERS, ∃ t, env.a j s = .found (h :: t) := by
  induction n with
  | zero =>
    intro i h hc
    exact absurd hc (by simp [dnsAttempts])
  | succ rem ih =>
    intro i h hc
    simp only [dnsAttempts] at hc
    rcases hr : dnsRound env i DNS_SERVERS with ⟨o, tr⟩
    rw [hr] at hc
    cases o with
    | some addr =>
      have haddr : addr = some h := by
        simpa [Prod.ext_iff] using hc
      subst haddr
      obtain ⟨s, hs, t, hat⟩ :=
        dnsRound_some_addr env i DNS_SERVERS h (by rw [hr])
      exact ⟨i, le_rfl, by omega, s, hs, t, hat⟩
    | none =>
      rcases hx : dnsAttempts env (i + 1) rem with ⟨r2, tr2⟩
      rw [hx] at hc
      have hih := ih (i + 1) h
      rw [hx] at hih
      obtain ⟨j, hij, hj, rest⟩ := hih hc
      exact ⟨j, by omega, by omega, rest⟩

/-- A retry loop that returns success without an address got it from a SOA
fallback that succeeded after a raising A query. -/
lemma dnsAttempts_true_noaddr (env : DnsEnv) (n : Nat) :
    ∀ i, (dnsAttempts env i n).1 = (true, none) →
      ∃ j, i ≤ j ∧ j < i + n ∧
        ∃ s ∈ DNS_SERVERS, env.a j s = .err ∧ env.soa j s = true := by
  induction n with
  | zero =>
    intro i hc
    exact absurd hc (by simp [dnsAttempts])
  | succ rem ih =>
    intro i hc
    simp only [dnsAttempts] at hc
    rcases hr : dnsRound env i DNS_SERVERS with ⟨o, tr⟩
    rw [hr] at hc
    cases o with
    | some addr =>
      have haddr : addr = none := by
        simpa [Prod.ext_iff] using hc
      subst haddr
      obtain ⟨s, hs, hat⟩ := dnsRound_some_none env i DNS_SERVERS (by rw [hr])
      exact ⟨i, le_rfl, by omega, s, hs, hat⟩
    | none =>
      rcases hx : dnsAttempts env (i + 1) rem with ⟨r2, tr2⟩
      rw [hx] at hc
      have hih := ih (i + 1)
      rw [hx] at hih
      obtain ⟨j, hij, hj, rest⟩ := hih hc
      exact ⟨j, by omega, by omega, rest⟩

/-- Every SOA query of the retry loop was sent to a server whose A query
raised on the same attempt, within the executed attempt range. -/
lemma dnsAttempts_soa_mem (env : DnsEnv) (n : Nat) :
    ∀ i j s, DnsEvent.querySOA j s ∈ (dnsAttempts env i n).2 →
      env.a j s = .err ∧ s ∈ DNS_SERVERS ∧ i ≤ j ∧ j < i + n := by
  induction n with
  | zero =>
    intro i j s h
    simp [dnsAttempts] at h
  | succ rem ih =>
    intro i j s hmem
    simp only [dnsAttempts] at hmem
    rcases hr : dnsRound env i DNS_SERVERS with ⟨o, tr⟩
    rw [hr] at hmem
    cases o with
    | some addr =>
      obtain ⟨hj, ha', hsmem⟩ :=
        dnsRound_soa_mem env i DNS_SERVERS j s (by rw [hr]; exact hmem)
      subst hj
      exact ⟨ha', hsmem, le_rfl, by omega⟩
    | none =>
      rcases hx : dnsAttempts env (i + 1) rem with ⟨r2, tr2⟩
      rw [hx] at hmem
      rw [List.mem_append] at hmem
      rcases hmem with hmem | hmem
      · obtain ⟨hj, ha', hsmem⟩ :=
          dnsRound_soa_mem env i DNS_SERVERS j s (by rw [hr]; exact hmem)
        subst hj
        exact ⟨ha', hsmem, le_rfl, by omega⟩
      · by_cases h0 : rem = 0
        · rw [h0] at hmem
          simp at hmem
        · rw [if_neg h0] at hmem
          rcases List.mem_cons.mp hmem with hmem | hmem
          · exact absurd hmem (by simp)
          · have hih := ih (i + 1) j s
            rw [hx] at hih
            obtain ⟨ha', hsmem, hij, hj⟩ := hih hmem
            exact ⟨ha', hsmem, by omega, by omega⟩

/-- Every event of the retry loop is a sleep or carries an attempt index
at least the starting attempt. -/
lemma dnsAttempts_events (env : DnsEnv) (n : Nat) :
    ∀ i, ∀ e ∈ (dnsAttempts env i n).2,
      e = DnsEvent.sleepEv ∨ ∃ j s, (e = .queryA j s ∨ e = .querySOA j s) ∧ i ≤ j := by
  induction n with
  | zero =>
    intro i e he
    simp [dnsAttempts] at he
  | succ rem ih =>
    intro i e he
    simp only [dnsAttempts] at he
    rcases hr : dnsRound env i DNS_SERVERS with ⟨o, tr⟩
    rw [hr] at he
    have ofRound : e ∈ (dnsRound env i DNS_SERVERS).2 →
        e = DnsEvent.sleepEv ∨ ∃ j s, (e = .queryA j s ∨ e = .querySOA j s) ∧ i ≤ j := by
      intro hmem
      obtain ⟨s, hors, _⟩ := dnsRound_events env i DNS_SERVERS e hmem
      exact Or.inr ⟨i, s, hors, le_rfl⟩
    cases o with
    | some addr => exact ofRound (by rw [hr]; exact he)
    | none =>
      rcases hx : dnsAttempts env (i + 1) rem with ⟨r2, tr2⟩
      rw [hx] at he
      rw [List.mem_append] at he
      rcases he with he | he
      · exact ofRound (by rw [hr]; exact he)
      · by_cases h0 : rem = 0
        · rw [h0] at he
          simp at he
        · rw [if_neg h0] at he
          rcases List.mem_cons.mp he with he | he
          · exact Or.inl he
          · have hih := ih (i + 1) e
            rw [hx] at hih
            rcases hih he with hs | ⟨j, s, hors, hij⟩
            · exact Or.inl hs
            · exact Or.inr ⟨j, s, hors, by omega⟩

/-- Events of one round of attempt `i` contribute nothing to the A-query
projection of a different attempt. -/
lemma dnsRound_aqueries_other (env : DnsEnv) (i j : Nat) (hne : ¬ j = i)
    (ss : List String) :
    ((dnsRound env j ss).2.filterMap (aQueryAt i)) = [] := by
  rw [List.filterMap_eq_nil_iff]
  intro e he
  obtain ⟨s, hors, _⟩ := dnsRound_events env j ss e he
  rcases hors with rfl | rfl
  · exact aQueryAt_other i j s hne
  · exact aQueryAt_soa i j s

/-- In every run of the retry loop, the A queries of any fixed attempt
visit an in-order prefix of the fixed server list. -/
lemma dnsAttempts_aqueries_prefix (env : DnsEnv) (n : Nat) :
    ∀ i j, ((dnsAttempts env i n).2.filterMap (aQueryAt j)) <+: DNS_SERVERS := by
  induction n with
  | zero =>
    intro i j
    simp [dnsAttempts]
  | succ rem ih =>
    intro i j
    simp only [dnsAttempts]
    rcases hr : dnsRound env i DNS_SERVERS with ⟨o, tr⟩
    have htr : tr = (dnsRound env i DNS_SERVERS).2 := by rw [hr]
    cases o with
    | some addr =>
      by_cases hij : j = i
      · subst hij
        rw [htr]
        exact dnsRound_aqueries_prefix env j DNS_SERVERS
      · rw [htr, dnsRound_aqueries_other env j i (fun h => hij h.symm) DNS_SERVERS]
        exact List.nil_prefix
    | none =>
      rcases hx : dnsAttempts env (i + 1) rem with ⟨r2, tr2⟩
      have htr2 : tr2 = (dnsAttempts env (i + 1) rem).2 := by rw [hx]
      rw [List.filterMap_append]
      by_cases hij : j = i
      · subst hij
        have hrest : ((if rem = 0 then [] else DnsEvent.sleepEv :: tr2).filterMap
            (aQueryAt j)) = [] := by
          by_cases h0 : rem = 0
          · simp [h0]
          · rw [if_neg h0]
            rw [List.filterMap_cons, aQueryAt_sleep]
            rw [List.filterMap_eq_nil_iff]
            intro e he
            rw [htr2] at he
            rcases dnsAttempts_events env rem (j + 1) e he with rfl | ⟨k, s, hors, hk⟩
            · exact aQueryAt_sleep j
            · rcases hors with rfl | rfl
              · exact aQueryAt_other j k s (by omega)
              · exact aQueryAt_soa j k s
        rw [hrest, List.append_nil, htr]
        exact dnsRound_aqueries_prefix env j DNS_SERVERS
      · rw [htr, dnsRound_aqueries_other env j i (fun h => hij h.symm) DNS_SERVERS,
          List.nil_append]
        by_cases h0 : rem = 0
        · simp [h0]
        · rw [if_neg h0, List.filterMap_cons, aQueryAt_sleep, htr2]
          exact ih (i + 1) j

/-- A round contributes no sleep event. -/
lemma dnsRound_no_sleep (env : DnsEnv) (i : Nat) (ss : List String) :
    DnsEvent.sleepEv ∉ (dnsRound env i ss).2 := by
  intro hmem
  obtain ⟨s, hors, _⟩ := dnsRound_events env i ss _ hmem
  rcases hors with h | h <;> exact absurd h (by simp)

/-- A failing run of the retry loop with `n` attempts slept exactly
`n - 1` times: one pause between each pair of consecutive rounds. -/
lemma dnsAttempts_sleep_count (env : DnsEnv) (n : Nat) :
    ∀ i, (dnsAttempts env i n).1 = (false, none) →
      (dnsAttempts env i n).2.count DnsEvent.sleepEv = n - 1 := by
  induction n with
  | zero =>
    intro i _
    rfl
  | succ rem ih =>
    intro i hc
    simp only [dnsAttempts] at hc ⊢
    rcases hr : dnsRound env i DNS_SERVERS with ⟨o, tr⟩
    rw [hr] at hc
    have htr : tr = (dnsRound env i DNS_SERVERS).2 := by rw [hr]
    cases o with
    | some addr => exact absurd hc (by simp)
    | none =>
      rcases hx : dnsAttempts env (i + 1) rem with ⟨r2, tr2⟩
      rw [hx] at hc
      have hcount0 : tr.count DnsEvent.sleepEv = 0 := by
        rw [List.count_eq_zero, htr]
        exact dnsRound_no_sleep env i DNS_SERVERS
      rw [List.count_append, hcount0]
      by_cases h0 : rem = 0
      · simp [h0]
      · rw [if_neg h0]
        have hih := ih (i + 1)
        rw [hx] at hih
        have hc2 : r2 = (false, none) := hc
        have hcnt := hih hc2
        rw [List.count_cons_self, hcnt]
        omega

/-- C4 counterexample.  An environment in which every A query succeeds
with an empty record list and every SOA query would succeed: `check_dns`
returns `(False, None)` without ever issuing a SOA query — its trace is
exactly the six A queries and one sleep — although no server "failed both
queries" (the SOA fallback, had it been consulted, would have succeeded).
This refutes the claim that `(false, none)` is returned only after all
servers across all retries fail both queries: an A answer with no records
skips the SOA fallback and moves to the next server. -/
theorem c4_counterexample :
    (check_dns ⟨fun _ _ => .found [], fun _ _ => true⟩ 2).1 = (false, none)
    ∧ (check_dns ⟨fun _ _ => .found [], fun _ _ => true⟩ 2).2
        = [.queryA 0 "1.1.1.1", .queryA 0 "8.8.8.8", .queryA 0 "9.9.9.9",
           .sleepEv, .queryA 1 "1.1.1.1", .queryA 1 "8.8.8.8", .queryA 1 "9.9.9.9"]
    ∧ (⟨fun _ _ => .found [], fun _ _ => true⟩ : DnsEnv).soa 0 "1.1.1.1" = true :=
  ⟨rfl, rfl, rfl⟩

/-- C4 amended.  For every environment and retry count: per retry round
the probe iterates the fixed server list in order (the A queries of each
round form an in-order prefix of `DNS_SERVERS`), querying an A record per
server; on an A query error it falls back to a SOA query against the same
server on the same attempt before moving on — but an A answer with an
empty record list moves to the next server without the SOA fallback.  It
returns `(true, address)` only from a non-empty A answer, `(true, no
address)` only from a SOA success after an A error, and `(false, none)`
exactly when every server of every round is either an empty A answer or
an A error whose SOA fallback also failed; in that case a sleep separates
each pair of consecutive retry rounds (`retries - 1` sleeps). -/
theorem c4_amended (env : DnsEnv) (r : Nat) :
    ((check_dns env r).1 = (false, none) ↔
      ∀ i < r, ∀ s ∈ DNS_SERVERS, deadPos env i s)
    ∧ (∀ h, (check_dns env r).1 = (true, some h) →
        ∃ i < r, ∃ s ∈ DNS_SERVERS, ∃ t, env.a i s = .found (h :: t))
    ∧ ((check_dns env r).1 = (true, none) →
        ∃ i < r, ∃ s ∈ DNS_SERVERS, env.a i s = .err ∧ env.soa i s = true)
    ∧ (∀ i s, DnsEvent.querySOA i s ∈ (check_dns env r).2 →
        env.a i s = .err ∧ s ∈ DNS_SERVERS ∧ i < r)
    ∧ (∀ i, ((check_dns env r).2.filterMap (aQueryAt i)) <+: DNS_SERVERS)
    ∧ ((check_dns env r).1 = (false, none) →
        (check_dns env r).2.count DnsEvent.sleepEv = r - 1) := by
  refine ⟨?_, ?_, ?_, ?_, ?_, ?_⟩
  · rw [check_dns, dnsAttempts_false_iff]
    constructor
    · intro hall i hi s hs
      exact hall i (by omega) (by omega) s hs
    · intro hall j hij hj s hs
      exact hall j (by omega) s hs
  · intro h hc
    obtain ⟨j, _, hj, s, hs, t, hat⟩ := dnsAttempts_true_addr env r 0 h hc
    exact ⟨j, by omega, s, hs, t, hat⟩
  · intro hc
    obtain ⟨j, _, hj, s, hs, hat⟩ := dnsAttempts_true_noaddr env r 0 hc
    exact ⟨j, by omega, s, hs, hat⟩
  · intro i s hmem
    obtain ⟨ha', hsmem, _, hj⟩ := dnsAttempts_soa_mem env r 0 i s hmem
    exact ⟨ha', hsmem, by omega⟩
  · intro i
    exact dnsAttempts_aqueries_prefix env r 0 i
  · intro hc
    exact dnsAttempts_sleep_count env r 0 hc

/-- Witness for `c4_amended`: an environment in which every A query raises
and every SOA query fails too makes `check_dns` return `(False, None)`. -/
theorem c4_witness :
    (check_dns ⟨fun _ _ => .err, fun _ _ => false⟩ 2).1 = (false, none) :=
  (c4_amended ⟨fun _ _ => .err, fun _ _ => false⟩ 2).1.mpr
    (fun _ _ _ _ => Or.inr ⟨rfl, rfl⟩)

end DomainsCheck
